import Mathlib

/-!
Verification of the DREAM finite-volume equation-assembly core against its
natural-language specification.  The definitions below are shallow embeddings
of the C++ sources: `BlockMatrix.cpp`, `QuantityData.cpp`,
`Equation/DiffusionTerm.cpp`, `Equation/AdvectionTerm.cpp` and
`Solver/Solver.cpp`.  Machine floating-point values are modelled by exact
rationals (the properties at stake are structural: write order, addressing,
telescoping sums), machine integers by `Nat`.
-/

namespace DREAM

/-! ## BlockMatrix (src/fvm/BlockMatrix.cpp) -/

/-- One sub-equation block: `struct _subeq` of `BlockMatrix.hpp` as used by
`BlockMatrix.cpp` (size `n`, declared non-zeros per row `nnz`, global row
offset `offset`). -/
structure Subeq where
  n : Nat
  nnz : Nat
  offset : Nat
deriving DecidableEq

/-- The `BlockMatrix` bookkeeping state: the list of declared sub-equations
and the running total `next_subindex` (sum of the sizes declared so far).
`constructed` records whether `ConstructSystem` has allocated the backing
PETSc structure. -/
structure BlockMatrix where
  subeqs : List Subeq
  next_subindex : Nat
  constructed : Bool
deriving DecidableEq

/-- A freshly constructed `BlockMatrix` (the C++ constructor body is empty;
`subeqs` is an empty vector and `next_subindex` zero-initialised). -/
def BlockMatrix.empty : BlockMatrix :=
  { subeqs := [], next_subindex := 0, constructed := false }

/-- `BlockMatrix::CreateSubEquation(n, nnz)` (BlockMatrix.cpp lines 54-66):
pushes a new sub-equation with offset `next_subindex`, advances
`next_subindex` by `n`, and returns `subeqs.size()-1`. -/
def BlockMatrix.CreateSubEquation (bm : BlockMatrix) (n nnz : Nat) :
    BlockMatrix × Nat :=
  let se : Subeq := { n := n, nnz := nnz, offset := bm.next_subindex }
  let bm2 : BlockMatrix :=
    { bm with subeqs := bm.subeqs ++ [se],
              next_subindex := bm.next_subindex + n }
  (bm2, bm2.subeqs.length - 1)

/-- Iterated `CreateSubEquation` over a list of `(n, nnz)` pairs, collecting
the returned sub-equation indices in call order. -/
def BlockMatrix.CreateSubEquations (bm : BlockMatrix) :
    List (Nat × Nat) → BlockMatrix × List Nat
  | [] => (bm, [])
  | p :: rest =>
    let r1 := bm.CreateSubEquation p.1 p.2
    let r2 := r1.1.CreateSubEquations rest
    (r2.1, r1.2 :: r2.2)

/-- `BlockMatrix::GetOffset(subeq)` (BlockMatrix.cpp lines 100-102): returns
`subeqs.at(subeq).offset`; `std::vector::at` throws out of range, embedded as
`none`. -/
def BlockMatrix.GetOffset (bm : BlockMatrix) (k : Nat) : Option Nat :=
  (bm.subeqs[k]?).map Subeq.offset

/-- Write `v` into positions `off, off+1, …, off+n-1` of `l` (the inner loop
of `ConstructSystem` filling the `nnz` array for one sub-equation). -/
def writeRange (l : List Nat) (off n v : Nat) : List Nat :=
  (List.range n).foldl (fun acc i => acc.set (off + i) v) l

/-- The backing sparse structure produced by `ConstructSystem`.  Modelled
from the spec: the base-class allocator `Matrix::Construct(m, n, 0, nnz)`
called at BlockMatrix.cpp line 40 is not under src/; per the spec it only
"allocates the backing sparse structure" of the given dimension with the
given per-row non-zero budget. -/
structure ConstructedSystem where
  dim : Nat
  nnzPerRow : List Nat
deriving DecidableEq

/-- `BlockMatrix::ConstructSystem()` (BlockMatrix.cpp lines 29-43): sets
`mSize = next_subindex`, fills the per-row `nnz` array from the declared
sub-equations and allocates the backing structure.  The body contains no
error branch (`none` would model a reported error), so the result is always
`some`; in particular nothing guards against a repeated call or an empty
sub-equation list. -/
def BlockMatrix.ConstructSystem (bm : BlockMatrix) :
    Option (ConstructedSystem × BlockMatrix) :=
  let mSize := bm.next_subindex
  let nnz := bm.subeqs.foldl
    (fun acc se => writeRange acc se.offset se.n se.nnz)
    (List.replicate mSize 0)
  some ({ dim := mSize, nnzPerRow := nnz }, { bm with constructed := true })

/-- The sub-equation list produced by declaring `sizes` starting from global
offset `base`: offsets are the partial sums of the sizes. -/
def expectedSubeqs (base : Nat) : List (Nat × Nat) → List Subeq
  | [] => []
  | p :: rest => { n := p.1, nnz := p.2, offset := base } ::
      expectedSubeqs (base + p.1) rest

theorem expectedSubeqs_length (base : Nat) (l : List (Nat × Nat)) :
    (expectedSubeqs base l).length = l.length := by
  induction l generalizing base with
  | nil => rfl
  | cons p rest ih => simp [expectedSubeqs, ih]

theorem createSubEquations_spec (bm : BlockMatrix) (l : List (Nat × Nat)) :
    (bm.CreateSubEquations l).1.subeqs
        = bm.subeqs ++ expectedSubeqs bm.next_subindex l ∧
    (bm.CreateSubEquations l).1.next_subindex
        = bm.next_subindex + (l.map Prod.fst).sum ∧
    (bm.CreateSubEquations l).1.constructed = bm.constructed ∧
    (bm.CreateSubEquations l).2
        = List.range' bm.subeqs.length l.length 1 := by
  induction l generalizing bm with
  | nil => simp [BlockMatrix.CreateSubEquations, expectedSubeqs]
  | cons p rest ih =>
    obtain ⟨h1, h2, h3, h4⟩ :=
      ih (bm.CreateSubEquation p.1 p.2).1
    refine ⟨?_, ?_, ?_, ?_⟩
    · simp only [BlockMatrix.CreateSubEquations]
      rw [h1]
      simp [BlockMatrix.CreateSubEquation, expectedSubeqs]
    · simp only [BlockMatrix.CreateSubEquations]
      rw [h2]
      simp [BlockMatrix.CreateSubEquation]
      ring
    · simp only [BlockMatrix.CreateSubEquations]
      rw [h3]
      simp [BlockMatrix.CreateSubEquation]
    · simp only [BlockMatrix.CreateSubEquations]
      rw [h4]
      simp [BlockMatrix.CreateSubEquation, List.range'_succ]

theorem expectedSubeqs_get (base : Nat) (l : List (Nat × Nat)) (k : Nat)
    (hk : k < l.length) :
    (expectedSubeqs base l)[k]?
      = some { n := (l.get ⟨k, hk⟩).1, nnz := (l.get ⟨k, hk⟩).2,
               offset := base + ((l.take k).map Prod.fst).sum } := by
  induction l generalizing base k with
  | nil => simp at hk
  | cons p rest ih =>
    cases k with
    | zero => simp [expectedSubeqs]
    | succ k =>
      have hk2 : k < rest.length := by simpa using hk
      simp only [expectedSubeqs, List.getElem?_cons_succ]
      rw [ih (base + p.1) k hk2]
      simp [Nat.add_assoc]

/-- Claim C1: declaring N sub-equations of sizes s1..sN in creation order on
a fresh BlockMatrix returns the indices 0,1,..,N-1, makes GetOffset(k) the
sum of the sizes before k for every k < N, and ConstructSystem then yields a
total matrix dimension equal to the sum of all sizes; in particular sizes
{2,5,1} give dimension 8 and GetOffset(2) == 7. -/
theorem C1_blockMatrix_addressing (sizes : List (Nat × Nat)) (k : Nat)
    (hk : k < sizes.length) :
    (BlockMatrix.empty.CreateSubEquations sizes).2 = List.range sizes.length ∧
    (BlockMatrix.empty.CreateSubEquations sizes).1.GetOffset k
      = some (((sizes.take k).map Prod.fst).sum) ∧
    (∀ cs bm2, (BlockMatrix.empty.CreateSubEquations sizes).1.ConstructSystem
        = some (cs, bm2) → cs.dim = (sizes.map Prod.fst).sum) ∧
    (∀ cs bm2,
      (BlockMatrix.empty.CreateSubEquations [(2,1),(5,1),(1,1)]).1.ConstructSystem
        = some (cs, bm2) → cs.dim = 8) ∧
    (BlockMatrix.empty.CreateSubEquations [(2,1),(5,1),(1,1)]).1.GetOffset 2
      = some 7 := by
  obtain ⟨h1, h2, _h3, h4⟩ := createSubEquations_spec BlockMatrix.empty sizes
  refine ⟨?_, ?_, ?_, ?_, ?_⟩
  · rw [h4]; simp [BlockMatrix.empty, List.range_eq_range']
  · unfold BlockMatrix.GetOffset
    rw [h1]
    simp only [BlockMatrix.empty, List.nil_append]
    rw [expectedSubeqs_get 0 sizes k hk]
    simp
  · intro cs bm2 hcs
    simp only [BlockMatrix.ConstructSystem, Option.some.injEq, Prod.mk.injEq]
      at hcs
    rw [← hcs.1]
    show (BlockMatrix.empty.CreateSubEquations sizes).1.next_subindex = _
    rw [h2]
    simp [BlockMatrix.empty]
  · intro cs bm2 hcs
    simp only [BlockMatrix.ConstructSystem, Option.some.injEq, Prod.mk.injEq]
      at hcs
    rw [← hcs.1]
    rfl
  · rfl

/-- Witness for C1 at the concrete instance sizes = {2,5,1}, k = 2. -/
theorem C1_blockMatrix_addressing_witness :
    (2 < ([(2,1),(5,1),(1,1)] : List (Nat × Nat)).length) ∧
    ((BlockMatrix.empty.CreateSubEquations [(2,1),(5,1),(1,1)]).1.GetOffset 2
      = some ((([(2,1),(5,1),(1,1)] : List (Nat × Nat)).take 2).map
          Prod.fst).sum) :=
  ⟨by decide,
   (C1_blockMatrix_addressing [(2,1),(5,1),(1,1)] 2 (by decide)).2.1⟩

/-- Claim C8 as stated is false: `ConstructSystem` contains no guard.  Called
on a fresh BlockMatrix with no sub-equations it completes normally (building
a 0-dimensional system), and called a second time on the resulting state it
completes normally again. -/
theorem C8_counterexample :
    (BlockMatrix.empty.ConstructSystem).isSome = true ∧
    (∀ cs bm2, BlockMatrix.empty.ConstructSystem = some (cs, bm2) →
      cs.dim = 0 ∧ (bm2.ConstructSystem).isSome = true) := by
  constructor
  · rfl
  · intro cs bm2 h
    simp only [BlockMatrix.ConstructSystem, BlockMatrix.empty,
      Option.some.injEq, Prod.mk.injEq] at h
    refine ⟨?_, ?_⟩
    · rw [← h.1]
    · rw [← h.2]
      rfl

/-- Claim C8 amended: `ConstructSystem` performs no such checks — it always
completes normally, allocating a backing structure of dimension
`next_subindex` (0 when no sub-equation was created), whether or not it has
been called before. -/
theorem C8_construct_system_no_guard (bm : BlockMatrix) :
    ∃ cs bm2, bm.ConstructSystem = some (cs, bm2) ∧
      cs.dim = bm.next_subindex ∧
      (bm2.ConstructSystem).isSome = true := by
  refine ⟨_, _, rfl, rfl, rfl⟩

/-! ## QuantityData (src/fvm/QuantityData.cpp) -/

/-- The temporary data store of a `QuantityData` object: the `data` buffer
(of length `nElements`) and the `hasChanged` flag. -/
structure QuantityData where
  data : List ℚ
  hasChanged : Bool
deriving DecidableEq

/-- The "unchanged" check of `QuantityData::Store(const real_t*, len_t, bool)`
(QuantityData.cpp lines 164-189): the signed sum
`s += data[i] - vec[offset+i]` over all elements. -/
def QuantityData.storeSum (qd : QuantityData) (vec : List ℚ) (offset : Nat) :
    ℚ :=
  (List.range qd.data.length).foldl
    (fun acc i => acc + (qd.data.getD i 0 - vec.getD (offset + i) 0)) 0

/-- `QuantityData::Store(const real_t *vec, const len_t offset, bool
mayBeConstant)` (QuantityData.cpp lines 164-189): when `mayBeConstant` and
the signed sum of differences is zero, the update is skipped and the data is
reported unchanged; otherwise the slice `vec[offset..]` replaces `data` and
`hasChanged` is set. -/
def QuantityData.Store (qd : QuantityData) (vec : List ℚ) (offset : Nat)
    (mayBeConstant : Bool) : QuantityData :=
  if mayBeConstant = true ∧ qd.storeSum vec offset = 0 then
    { qd with hasChanged := false }
  else
    { data := (List.range qd.data.length).map
        (fun i => vec.getD (offset + i) 0),
      hasChanged := true }

/-- Claim C9: with `mayBeConstant` true, `Store` skips the update and reports
the data unchanged exactly when the signed sum of element-wise differences is
zero; consequently an input whose elements differ from the stored data but
whose differences cancel (stored [0,0] against input [1,-1]) leaves the data
unmodified and `hasChanged` false. -/
theorem C9_store_signed_sum_skip (qd : QuantityData) (vec : List ℚ)
    (offset : Nat) (h : qd.storeSum vec offset = 0) :
    qd.Store vec offset true = { data := qd.data, hasChanged := false } ∧
    (QuantityData.Store ⟨[0, 0], true⟩ [1, -1] 0 true).data = [0, 0] ∧
    (QuantityData.Store ⟨[0, 0], true⟩ [1, -1] 0 true).hasChanged = false ∧
    ((1 : ℚ) ≠ 0 ∧ (-1 : ℚ) ≠ 0) := by
  refine ⟨?_, ?_, ?_, by norm_num⟩
  · unfold QuantityData.Store
    rw [if_pos ⟨rfl, h⟩]
  · have hsum : (QuantityData.mk [0, 0] true).storeSum [1, -1] 0 = 0 := by
      unfold QuantityData.storeSum
      norm_num [List.range_succ]
    unfold QuantityData.Store
    rw [if_pos ⟨rfl, hsum⟩]
  · have hsum : (QuantityData.mk [0, 0] true).storeSum [1, -1] 0 = 0 := by
      unfold QuantityData.storeSum
      norm_num [List.range_succ]
    unfold QuantityData.Store
    rw [if_pos ⟨rfl, hsum⟩]

/-- Witness for C9: the cancelling input [1,-1] against stored data [0,0]. -/
theorem C9_store_signed_sum_skip_witness :
    (QuantityData.mk [0, 0] true).storeSum [1, -1] 0 = 0 ∧
    (QuantityData.Store ⟨[0, 0], true⟩ [1, -1] 0 true).data = [0, 0] := by
  have hsum : (QuantityData.mk [0, 0] true).storeSum [1, -1] 0 = 0 := by
    unfold QuantityData.storeSum
    norm_num [List.range_succ]
  exact ⟨hsum, (C9_store_signed_sum_skip ⟨[0, 0], true⟩ [1, -1] 0 hsum).2.1⟩

/-! ## DiffusionTerm::SaveCoefficientsSFile
(src/fvm/Equation/DiffusionTerm.cpp lines 373-396) -/

/-- A single dataset write `sf->WriteMultiArray(name, payload, …)`: the
dataset name together with the coefficient buffer actually passed. -/
def sfileWrite (name : String) : Option (List ℚ) → List (String × List ℚ)
  | some a => [(name, a)]
  | none => []

/-- `DiffusionTerm::SaveCoefficientsSFile(SFile*)` (DiffusionTerm.cpp lines
373-396) as the ordered list of dataset writes it issues.  Each coefficient
is written iff its pointer is non-null; the write guarded by `d22 != nullptr`
passes `this->d21[0]` as payload (line 389). -/
def DiffusionTerm.SaveCoefficientsSFile
    (drr d11 d12 d21 d22 : Option (List ℚ)) : List (String × List ℚ) :=
  sfileWrite "Drr" drr ++
  sfileWrite "D21" d21 ++
  (if d22.isSome then sfileWrite "D22" d21 else []) ++
  sfileWrite "D12" d12 ++
  sfileWrite "D11" d11

/-- Claim C10: with non-null d21 and d22, the d21 array is written under both
dataset names "D21" and "D22", and the output is independent of the contents
of the d22 array (they are never written). -/
theorem C10_saveCoefficients_d21_twice (drr d11 d12 : Option (List ℚ))
    (a21 a22 : List ℚ) :
    (DiffusionTerm.SaveCoefficientsSFile drr d11 d12 (some a21) (some a22))
      = DiffusionTerm.SaveCoefficientsSFile drr d11 d12 (some a21)
          (some a21) ∧
    ("D21", a21) ∈
      DiffusionTerm.SaveCoefficientsSFile drr d11 d12 (some a21) (some a22) ∧
    ("D22", a21) ∈
      DiffusionTerm.SaveCoefficientsSFile drr d11 d12 (some a21) (some a22) := by
  refine ⟨rfl, ?_, ?_⟩ <;>
    simp [DiffusionTerm.SaveCoefficientsSFile, sfileWrite]

/-! ## Coefficient-buffer ownership and grid rebuild
(src/fvm/Equation/DiffusionTerm.cpp lines 40-82, 214-224 and
src/unnamed/part_007 (AdvectionTerm.cpp) lines 48-90, 359-377)

The per-radius coefficient arrays are carved from one contiguous allocation;
under the uniform-momentum-grid assumption made explicitly by the source
("XXX here we assume that all momentum grids are the same") the buffers are
modelled as flat lists of the corresponding total face-grid sizes. -/

/-- The grid shape the terms allocate against: `nr` radial cells, each with a
`np1 × np2` momentum grid (uniform across radii, per the source's XXX
assumption). -/
structure GridShape where
  nr : Nat
  np1 : Nat
  np2 : Nat
deriving DecidableEq

/-- The five diffusion-coefficient buffers of a DiffusionTerm. -/
structure DiffCoeffs where
  drr : List ℚ
  d11 : List ℚ
  d12 : List ℚ
  d21 : List ℚ
  d22 : List ℚ
deriving DecidableEq

/-- `DiffusionTerm::AllocateCoefficients` followed by `ResetCoefficients`
(DiffusionTerm.cpp lines 40-82, 229-264): fresh buffers sized to the current
grid — `drr` on the `nr+1` radial faces, `d11`/`d12` on the `np1+1` faces of
the first momentum direction, `d21`/`d22` on the `np2+1` faces of the second
— with every coefficient set to zero. -/
def allocDiffCoeffs (g : GridShape) : DiffCoeffs :=
  { drr := List.replicate ((g.nr + 1) * g.np1 * g.np2) 0,
    d11 := List.replicate (g.nr * (g.np1 + 1) * g.np2) 0,
    d12 := List.replicate (g.nr * (g.np1 + 1) * g.np2) 0,
    d21 := List.replicate (g.nr * g.np1 * (g.np2 + 1)) 0,
    d22 := List.replicate (g.nr * g.np1 * (g.np2 + 1)) 0 }

/-- Coefficient-relevant state of a DiffusionTerm: the buffers and the
`coefficientsShared` ownership flag (set by `SetCoefficients`, cleared by
`AllocateCoefficients`). -/
structure DiffusionTermState where
  coeffs : DiffCoeffs
  coefficientsShared : Bool
deriving DecidableEq

/-- `DiffusionTerm::GridRebuilt()` (DiffusionTerm.cpp lines 214-224): after
the base-class call (which only refreshes the cached grid sizes, modelled by
passing the current shape `g` explicitly), returns false without touching
the buffers when they are shared, and otherwise reallocates them to the
current grid shape (zeroed). -/
def DiffusionTerm.GridRebuilt (g : GridShape) (st : DiffusionTermState) :
    DiffusionTermState × Bool :=
  if st.coefficientsShared then (st, false)
  else ({ coeffs := allocDiffCoeffs g, coefficientsShared := false }, true)

/-- The advection-coefficient buffers of an AdvectionTerm. -/
structure AdvCoeffs where
  fr : List ℚ
  f1 : List ℚ
  f2 : List ℚ
  f1pSqAtZero : List ℚ
deriving DecidableEq

/-- `AdvectionTerm::AllocateCoefficients` followed by `ResetCoefficients`
(part_007 lines 48-90, 382-415): fresh zeroed buffers sized to the current
grid. -/
def allocAdvCoeffs (g : GridShape) : AdvCoeffs :=
  { fr := List.replicate ((g.nr + 1) * g.np1 * g.np2) 0,
    f1 := List.replicate (g.nr * (g.np1 + 1) * g.np2) 0,
    f2 := List.replicate (g.nr * g.np1 * (g.np2 + 1)) 0,
    f1pSqAtZero := List.replicate (g.nr * g.np2) 0 }

/-- Coefficient-relevant state of an AdvectionTerm: the advection buffers
with their ownership flag, and the ownership flag of the interpolation
coefficients (whose buffers do not take part in claim C7). -/
structure AdvectionTermState where
  coeffs : AdvCoeffs
  coefficientsShared : Bool
  interpolationCoefficientsShared : Bool
deriving DecidableEq

/-- `AdvectionTerm::GridRebuilt()` (part_007 lines 359-377): reallocates the
advection buffers (zeroed) only when they are owned; reallocates the
interpolation coefficients only when those are owned; always reallocates the
(owned) differentiation coefficients; returns whether either owned family
was reallocated. -/
def AdvectionTerm.GridRebuilt (g : GridShape) (st : AdvectionTermState) :
    AdvectionTermState × Bool :=
  let st1 := if st.coefficientsShared then st
    else { st with coeffs := allocAdvCoeffs g }
  (st1, !st.coefficientsShared || !st.interpolationCoefficientsShared)

/-- Claim C7: for both term kinds, GridRebuilt never frees or reallocates
shared coefficient buffers (the state is returned untouched), and for owned
buffers it reallocates them to the current grid shape with every coefficient
reset to zero. -/
theorem C7_gridRebuilt_ownership (g : GridShape) (stD : DiffusionTermState)
    (stA : AdvectionTermState) :
    (stD.coefficientsShared = true →
      DiffusionTerm.GridRebuilt g stD = (stD, false)) ∧
    (stD.coefficientsShared = false →
      (DiffusionTerm.GridRebuilt g stD).1.coeffs = allocDiffCoeffs g ∧
      (DiffusionTerm.GridRebuilt g stD).1.coeffs.drr.length
          = (g.nr + 1) * g.np1 * g.np2 ∧
      (DiffusionTerm.GridRebuilt g stD).1.coeffs.d11.length
          = g.nr * (g.np1 + 1) * g.np2 ∧
      (DiffusionTerm.GridRebuilt g stD).1.coeffs.d21.length
          = g.nr * g.np1 * (g.np2 + 1) ∧
      (∀ q ∈ (DiffusionTerm.GridRebuilt g stD).1.coeffs.drr, q = 0) ∧
      (∀ q ∈ (DiffusionTerm.GridRebuilt g stD).1.coeffs.d11, q = 0) ∧
      (∀ q ∈ (DiffusionTerm.GridRebuilt g stD).1.coeffs.d12, q = 0) ∧
      (∀ q ∈ (DiffusionTerm.GridRebuilt g stD).1.coeffs.d21, q = 0) ∧
      (∀ q ∈ (DiffusionTerm.GridRebuilt g stD).1.coeffs.d22, q = 0)) ∧
    (stA.coefficientsShared = true →
      (AdvectionTerm.GridRebuilt g stA).1.coeffs = stA.coeffs) ∧
    (stA.coefficientsShared = false →
      (AdvectionTerm.GridRebuilt g stA).1.coeffs = allocAdvCoeffs g ∧
      (AdvectionTerm.GridRebuilt g stA).1.coeffs.fr.length
          = (g.nr + 1) * g.np1 * g.np2 ∧
      (AdvectionTerm.GridRebuilt g stA).1.coeffs.f1.length
          = g.nr * (g.np1 + 1) * g.np2 ∧
      (AdvectionTerm.GridRebuilt g stA).1.coeffs.f2.length
          = g.nr * g.np1 * (g.np2 + 1) ∧
      (∀ q ∈ (AdvectionTerm.GridRebuilt g stA).1.coeffs.fr, q = 0) ∧
      (∀ q ∈ (AdvectionTerm.GridRebuilt g stA).1.coeffs.f1, q = 0) ∧
      (∀ q ∈ (AdvectionTerm.GridRebuilt g stA).1.coeffs.f2, q = 0) ∧
      (∀ q ∈ (AdvectionTerm.GridRebuilt g stA).1.coeffs.f1pSqAtZero, q = 0))
    := by
  refine ⟨?_, ?_, ?_, ?_⟩
  · intro h
    simp [DiffusionTerm.GridRebuilt, h]
  · intro h
    simp only [DiffusionTerm.GridRebuilt, h, Bool.false_eq_true, if_false]
    simp [allocDiffCoeffs, List.mem_replicate]
  · intro h
    simp [AdvectionTerm.GridRebuilt, h]
  · intro h
    simp only [AdvectionTerm.GridRebuilt, h, Bool.false_eq_true, if_false]
    simp [allocAdvCoeffs, List.mem_replicate]

/-- Witness for C7: a 2-radius, 3×2-momentum grid, one term with shared
buffers (left untouched) and one with owned buffers (reallocated and
zeroed). -/
theorem C7_gridRebuilt_ownership_witness :
    (DiffusionTerm.GridRebuilt ⟨2, 3, 2⟩
        ⟨⟨[1], [1], [1], [1], [1]⟩, true⟩ =
      (⟨⟨[1], [1], [1], [1], [1]⟩, true⟩, false)) ∧
    (AdvectionTerm.GridRebuilt ⟨2, 3, 2⟩
        ⟨⟨[5], [5], [5], [5]⟩, false, false⟩).1.coeffs
      = allocAdvCoeffs ⟨2, 3, 2⟩ :=
  ⟨(C7_gridRebuilt_ownership ⟨2, 3, 2⟩ ⟨⟨[1], [1], [1], [1], [1]⟩, true⟩
      ⟨⟨[5], [5], [5], [5]⟩, false, false⟩).1 rfl,
   ((C7_gridRebuilt_ownership ⟨2, 3, 2⟩ ⟨⟨[1], [1], [1], [1], [1]⟩, true⟩
      ⟨⟨[5], [5], [5], [5]⟩, false, false⟩).2.2.2 rfl).1⟩

/-! ## SetJacobianBlock: DiffusionTerm vs AdvectionTerm
(src/fvm/Equation/DiffusionTerm.cpp lines 320-325 and
src/unnamed/part_007 (AdvectionTerm.cpp) lines 468-511)

Both implementations delegate the identity contribution to the term's own
`SetMatrixElements`, whose stencil body (`DiffusionTerm.set.cpp` /
`AdvectionTerm.setNEW.cpp`) is an included file shared by the two entry
points; its ordered list of (row, col, value) add-writes therefore enters the
model as a parameter `stencil`. -/

/-- One `mat->SetElement(row, col, v)` add-write. -/
abbrev MatWrite := Nat × Nat × ℚ

/-- `DiffusionTerm::SetJacobianBlock` (DiffusionTerm.cpp lines 320-325): the
matrix elements are emitted whenever `uqtyId == derivId`; there is no
`coefficientsShared` guard and no dependency-list machinery. -/
def DiffusionTerm.SetJacobianBlock (uqtyId derivId : Nat)
    (stencil : List MatWrite) : List MatWrite :=
  if uqtyId = derivId then stencil else []

/-- The AdvectionTerm data consulted by its `SetJacobianBlock`: the writes of
its `SetMatrixElements`, the ownership flag, the registered dependency list
`derivIds` with the per-dependency `nMultiples`, and the Jacobian-column
writes produced for a registered dependency via `SetPartialAdvectionTerm`
and `SetVectorElements` on `JacobianColumn`. -/
structure AdvJacData where
  stencil : List MatWrite
  coefficientsShared : Bool
  derivIds : List (Nat × Nat)
  columnWrites : Nat → Nat → List MatWrite

/-- `AdvectionTerm::SetJacobianBlock` (part_007 lines 468-511): the identity
contribution is emitted only when `uqtyId == derivId` AND the coefficients
are not shared; then, if `derivId` occurs in the dependency list (the loop
keeps the `nMultiples` of the last occurrence), the differentiation pass
adds one Jacobian column per multiple. -/
def AdvectionTerm.SetJacobianBlock (uqtyId derivId : Nat) (d : AdvJacData) :
    List MatWrite :=
  (if uqtyId = derivId ∧ d.coefficientsShared = false then d.stencil
   else []) ++
  (match (d.derivIds.filter (fun p => p.1 = derivId)).getLast? with
   | some p => d.columnWrites derivId p.2
   | none => [])

/-- Claim C5 as stated is false: DiffusionTerm's SetJacobianBlock does not
behave the same way as AdvectionTerm's.  With externally shared coefficients
and derivId == uqtyId, DiffusionTerm still emits the matrix elements (it has
no `coefficientsShared` guard) while AdvectionTerm (with an empty dependency
list) emits nothing. -/
theorem C5_counterexample :
    DREAM.DiffusionTerm.SetJacobianBlock 0 0 [(0, 0, 1)] = [(0, 0, 1)] ∧
    DREAM.AdvectionTerm.SetJacobianBlock 0 0
      { stencil := [(0, 0, 1)], coefficientsShared := true,
        derivIds := [], columnWrites := fun _ _ => [] } = [] ∧
    DREAM.DiffusionTerm.SetJacobianBlock 0 0 [(0, 0, 1)]
      ≠ DREAM.AdvectionTerm.SetJacobianBlock 0 0
          { stencil := [(0, 0, 1)], coefficientsShared := true,
            derivIds := [], columnWrites := fun _ _ => [] } := by
  refine ⟨rfl, rfl, ?_⟩
  intro h
  simp [DiffusionTerm.SetJacobianBlock,
    AdvectionTerm.SetJacobianBlock] at h

/-- Claim C5 amended: DiffusionTerm's SetJacobianBlock contributes exactly
the elements SetMatrixElements would write whenever derivId equals uqtyId —
regardless of whether the coefficients are externally shared, unlike
AdvectionTerm, which skips the identity contribution for shared coefficients
— and contributes nothing when derivId differs from uqtyId (no automatic
cross-unknown Jacobian); the two implementations agree whenever the
coefficients are not shared and derivId is not a registered dependency of
the AdvectionTerm. -/
theorem C5_diffusion_jacobian_identity (uqtyId derivId : Nat)
    (d : AdvJacData) (hsh : d.coefficientsShared = false)
    (hdep : d.derivIds.filter (fun p => p.1 = derivId) = []) :
    (uqtyId = derivId →
      DiffusionTerm.SetJacobianBlock uqtyId derivId d.stencil = d.stencil) ∧
    (uqtyId ≠ derivId →
      DiffusionTerm.SetJacobianBlock uqtyId derivId d.stencil = []) ∧
    DiffusionTerm.SetJacobianBlock uqtyId derivId d.stencil
      = AdvectionTerm.SetJacobianBlock uqtyId derivId d := by
  refine ⟨?_, ?_, ?_⟩
  · intro h
    simp [DiffusionTerm.SetJacobianBlock, h]
  · intro h
    simp [DiffusionTerm.SetJacobianBlock, h]
  · unfold DiffusionTerm.SetJacobianBlock AdvectionTerm.SetJacobianBlock
    rw [hdep]
    simp only [List.getLast?_nil, List.append_nil, hsh]
    by_cases h : uqtyId = derivId <;> simp [h]

/-- Witness for C5's amended theorem: owned coefficients, no registered
dependencies, at uqtyId = derivId = 0. -/
theorem C5_diffusion_jacobian_identity_witness :
    DREAM.DiffusionTerm.SetJacobianBlock 0 0 [(1, 2, 3)]
      = AdvectionTerm.SetJacobianBlock 0 0
          { stencil := [(1, 2, 3)], coefficientsShared := false,
            derivIds := [], columnWrites := fun _ _ => [] } :=
  (C5_diffusion_jacobian_identity 0 0
    { stencil := [(1, 2, 3)], coefficientsShared := false,
      derivIds := [], columnWrites := fun _ _ => [] } rfl rfl).2.2

/-! ## Solver (src/src/Solver/Solver.cpp)

The Solver routines are sequences of loops issuing calls on handlers,
operators and the block matrix; they are embedded as functions producing the
ordered list of those calls (plus, for the assembly routines, the
accumulated matrix/vector state). -/

/-- A fold whose step appends a per-element chunk emits the concatenation of
the chunks after the initial accumulator. -/
theorem foldl_emits {α β : Type} (step : List β → α → List β)
    (f : α → List β) (h : ∀ acc x, step acc x = acc ++ f x) :
    ∀ (l : List α) (init : List β), l.foldl step init = init ++ l.flatMap f := by
  intro l
  induction l with
  | nil => intro init; simp
  | cons x xs ih =>
    intro init
    rw [List.foldl_cons, h, ih, List.flatMap_cons, List.append_assoc]

/-- The externally observable actions of `Solver::RebuildTerms` (Solver.cpp
lines 241-287), in issue order: rebuilds of the two collision-quantity
handlers, of the RunawayFluid closure, of each predetermined unknown's
equation followed by the store of its data, of the SPIHandler, and of each
operator of each non-trivial unknown. -/
inductive RebuildEvent where
  | cqhHottail : RebuildEvent
  | cqhRunaway : RebuildEvent
  | reFluid : RebuildEvent
  | predetEquation (i : Nat) : RebuildEvent
  | predetStore (i : Nat) : RebuildEvent
  | spi : RebuildEvent
  | opRebuild (uqnId opIdx : Nat) : RebuildEvent
deriving DecidableEq

/-- The Solver data consulted by `RebuildTerms`: which optional handlers are
configured (`cqh_hottail`, `cqh_runaway`, `SPI` null checks), the number of
unknowns, which unknowns are predetermined, the non-trivial unknown ids and
the operator count of each unknown's equation. -/
structure RebuildConfig where
  hasHottail : Bool
  hasRunaway : Bool
  hasSPI : Bool
  numUnknowns : Nat
  isPredetermined : Nat → Bool
  nontrivial : List Nat
  numOps : Nat → Nat

/-- `Solver::RebuildTerms(t, dt)` (Solver.cpp lines 241-287) as the ordered
list of rebuild actions it issues (timer bookkeeping omitted). -/
def Solver.RebuildTerms (c : RebuildConfig) : List RebuildEvent :=
  let ev1 : List RebuildEvent :=
    if c.hasHottail then [RebuildEvent.cqhHottail] else []
  let ev2 := if c.hasRunaway then ev1 ++ [RebuildEvent.cqhRunaway] else ev1
  let ev3 := ev2 ++ [RebuildEvent.reFluid]
  let ev4 := (List.range c.numUnknowns).foldl (fun acc i =>
    if c.isPredetermined i then
      acc ++ [RebuildEvent.predetEquation i, RebuildEvent.predetStore i]
    else acc) ev3
  let ev5 := if c.hasSPI then ev4 ++ [RebuildEvent.spi] else ev4
  c.nontrivial.foldl (fun acc u =>
    (List.range (c.numOps u)).foldl
      (fun acc2 k => acc2 ++ [RebuildEvent.opRebuild u k]) acc) ev5

/-- Phase (1) of the spec's dependency order: the auxiliary physics
handlers. -/
def specAuxPhase (c : RebuildConfig) : List RebuildEvent :=
  (if c.hasHottail then [RebuildEvent.cqhHottail] else []) ++
  (if c.hasRunaway then [RebuildEvent.cqhRunaway] else []) ++
  [RebuildEvent.reFluid]

/-- Phase (2): every predetermined unknown's equation rebuilt and its data
stored. -/
def specPredetPhase (c : RebuildConfig) : List RebuildEvent :=
  (List.range c.numUnknowns).flatMap (fun i =>
    if c.isPredetermined i then
      [RebuildEvent.predetEquation i, RebuildEvent.predetStore i]
    else [])

/-- Phase (3): the remaining auxiliary handler (SPI). -/
def specSPIPhase (c : RebuildConfig) : List RebuildEvent :=
  if c.hasSPI then [RebuildEvent.spi] else []

/-- Phase (4): RebuildTerms on every operator of every non-trivial
unknown. -/
def specOpPhase (c : RebuildConfig) : List RebuildEvent :=
  c.nontrivial.flatMap (fun u =>
    (List.range (c.numOps u)).map (RebuildEvent.opRebuild u))

theorem flatMap_singleton_map {α β : Type} (f : α → β) (l : List α) :
    l.flatMap (fun x => [f x]) = l.map f := by
  induction l with
  | nil => rfl
  | cons x xs ih => simp [ih]

theorem rebuildTerms_phases (c : RebuildConfig) :
    Solver.RebuildTerms c
      = specAuxPhase c ++ specPredetPhase c ++ specSPIPhase c
          ++ specOpPhase c := by
  have hpred : ∀ (init : List RebuildEvent),
      (List.range c.numUnknowns).foldl (fun acc i =>
        if c.isPredetermined i then
          acc ++ [RebuildEvent.predetEquation i, RebuildEvent.predetStore i]
        else acc) init = init ++ specPredetPhase c := by
    intro init
    exact foldl_emits _ (fun i =>
        if c.isPredetermined i then
          [RebuildEvent.predetEquation i, RebuildEvent.predetStore i]
        else [])
      (fun acc i => by by_cases h : c.isPredetermined i <;> simp [h])
      _ init
  have hinner : ∀ (u : Nat) (init : List RebuildEvent),
      (List.range (c.numOps u)).foldl
        (fun acc2 k => acc2 ++ [RebuildEvent.opRebuild u k]) init
      = init ++ (List.range (c.numOps u)).map (RebuildEvent.opRebuild u) := by
    intro u init
    rw [foldl_emits _ (fun k => [RebuildEvent.opRebuild u k])
      (fun acc2 k => rfl), flatMap_singleton_map]
  have hops : ∀ (init : List RebuildEvent),
      c.nontrivial.foldl (fun acc u =>
        (List.range (c.numOps u)).foldl
          (fun acc2 k => acc2 ++ [RebuildEvent.opRebuild u k]) acc) init
      = init ++ specOpPhase c := by
    intro init
    exact foldl_emits _ _ (fun acc u => hinner u acc) _ init
  simp only [Solver.RebuildTerms]
  rw [hops, hpred]
  by_cases h1 : c.hasHottail <;> by_cases h2 : c.hasRunaway <;>
    by_cases h3 : c.hasSPI <;>
      simp [h1, h2, h3, specAuxPhase, specSPIPhase, List.append_assoc]

/-- Discriminator for operator-rebuild events. -/
def RebuildEvent.isOp : RebuildEvent → Bool
  | .opRebuild _ _ => true
  | _ => false

theorem specOpPhase_isOp (c : RebuildConfig) :
    ∀ x ∈ specOpPhase c, x.isOp = true := by
  intro x hx
  simp only [specOpPhase, List.mem_flatMap, List.mem_map] at hx
  obtain ⟨u, _, k, _, hx2⟩ := hx
  rw [← hx2]
  rfl

theorem prefix_phases_not_op (c : RebuildConfig) :
    ∀ x ∈ specAuxPhase c ++ specPredetPhase c ++ specSPIPhase c,
      x.isOp = false := by
  intro x hx
  rcases List.mem_append.1 hx with hAB | hS
  · rcases List.mem_append.1 hAB with hA | hP
    · simp only [specAuxPhase] at hA
      rcases List.mem_append.1 hA with h1 | h2
      · rcases List.mem_append.1 h1 with hh | hh
        · by_cases hb : c.hasHottail
          · rw [if_pos hb] at hh
            rw [List.mem_singleton.1 hh]; rfl
          · rw [if_neg hb] at hh
            simp at hh
        · by_cases hb : c.hasRunaway
          · rw [if_pos hb] at hh
            rw [List.mem_singleton.1 hh]; rfl
          · rw [if_neg hb] at hh
            simp at hh
      · rw [List.mem_singleton.1 h2]; rfl
    · obtain ⟨i, _, hxi⟩ := List.mem_flatMap.1 hP
      by_cases hp : c.isPredetermined i
      · rw [if_pos hp] at hxi
        simp only [List.mem_cons, List.mem_singleton, List.not_mem_nil,
          or_false] at hxi
        rcases hxi with h | h <;> (rw [h]; rfl)
      · rw [if_neg hp] at hxi
        simp at hxi
  · simp only [specSPIPhase] at hS
    by_cases hb : c.hasSPI
    · rw [if_pos hb] at hS
      rw [List.mem_singleton.1 hS]; rfl
    · rw [if_neg hb] at hS
      simp at hS

/-- Claim C6: RebuildTerms performs, in order, (1) the auxiliary physics
handlers (collision-quantity handlers, runaway-fluid closure), (2) every
predetermined unknown\'s equation rebuild followed by the store of its data,
(3) the SPI handler, (4) RebuildTerms on every operator of every non-trivial
unknown — so in the issued call sequence every non-operator action precedes
every operator rebuild. -/
theorem C6_rebuildTerms_order (c : RebuildConfig) (i j : Nat)
    (u k : Nat) (e : RebuildEvent)
    (hi : (Solver.RebuildTerms c)[i]? = some (RebuildEvent.opRebuild u k))
    (hj : (Solver.RebuildTerms c)[j]? = some e)
    (he : e.isOp = false) :
    Solver.RebuildTerms c
      = specAuxPhase c ++ specPredetPhase c ++ specSPIPhase c
          ++ specOpPhase c ∧
    j < i := by
  have hphase := rebuildTerms_phases c
  refine ⟨hphase, ?_⟩
  have hsplit : Solver.RebuildTerms c
      = (specAuxPhase c ++ specPredetPhase c ++ specSPIPhase c)
        ++ specOpPhase c := by
    rw [hphase]
  set P := specAuxPhase c ++ specPredetPhase c ++ specSPIPhase c with hP
  have hiP : ¬ i < P.length := by
    intro hlt
    rw [hsplit, List.getElem?_append, if_pos hlt] at hi
    have hmem := List.getElem?_mem hi
    have := prefix_phases_not_op c _ hmem
    simp [RebuildEvent.isOp] at this
  have hjP : j < P.length := by
    by_contra hge
    rw [hsplit, List.getElem?_append, if_neg hge] at hj
    have hmem := List.getElem?_mem hj
    have := specOpPhase_isOp c _ hmem
    rw [he] at this
    exact Bool.false_ne_true this
  omega

/-- Witness for C6: two non-trivial unknowns with one operator each, a
hottail handler and the SPI handler configured, one predetermined unknown;
the predetermined store (index 3 in the trace) precedes the final operator
rebuild (index 6). -/
theorem C6_rebuildTerms_order_witness :
    ((Solver.RebuildTerms
        { hasHottail := true, hasRunaway := false, hasSPI := true,
          numUnknowns := 3, isPredetermined := fun i => i = 2,
          nontrivial := [0, 1], numOps := fun _ => 1 })[6]?
      = some (RebuildEvent.opRebuild 1 0)) ∧
    ((Solver.RebuildTerms
        { hasHottail := true, hasRunaway := false, hasSPI := true,
          numUnknowns := 3, isPredetermined := fun i => i = 2,
          nontrivial := [0, 1], numOps := fun _ => 1 })[3]?
      = some (RebuildEvent.predetStore 2)) ∧ (3 : Nat) < 6 := by
  refine ⟨by decide, by decide, ?_⟩
  exact (C6_rebuildTerms_order
    { hasHottail := true, hasRunaway := false, hasSPI := true,
      numUnknowns := 3, isPredetermined := fun i => i = 2,
      nontrivial := [0, 1], numOps := fun _ => 1 }
    6 3 1 0 (RebuildEvent.predetStore 2) (by decide) (by decide) (by decide)).2

/-! ## Solver::BuildMatrix (src/src/Solver/Solver.cpp lines 134-164)

The right-hand-side array `S` is modelled as a function `Nat → ℚ` (the
zeroing loop makes it the constant-zero function); a term's additive writes
`vec[idx] += v` are folds of pointwise updates. -/

/-- Apply a list of additive writes `(idx, v)` to a vector. -/
def vecAdd (S : Nat → ℚ) (w : List (Nat × ℚ)) : Nat → ℚ :=
  w.foldl (fun acc p => Function.update acc p.1 (acc p.1 + p.2)) S

theorem vecAdd_append (S : Nat → ℚ) (w1 w2 : List (Nat × ℚ)) :
    vecAdd S (w1 ++ w2) = vecAdd (vecAdd S w1) w2 :=
  List.foldl_append _ _ w1 w2

theorem vecAdd_apply (S : Nat → ℚ) (w : List (Nat × ℚ)) (i : Nat) :
    vecAdd S w i
      = S i + ((w.filter (fun p => p.1 == i)).map Prod.snd).sum := by
  induction w generalizing S with
  | nil => simp [vecAdd]
  | cons p ps ih =>
    show vecAdd (Function.update S p.1 (S p.1 + p.2)) ps i = _
    rw [ih]
    by_cases h : p.1 = i
    · subst h
      rw [Function.update_same]
      simp [List.filter_cons, add_assoc]
    · rw [Function.update_noteq (Ne.symm h)]
      simp [List.filter_cons, h]

/-- Block-local matrix writes shifted by the selected sub-equation's row and
column offsets (the effect of `SelectSubEquation` on subsequent
`SetElement` calls). -/
def shiftWrites (ro co : Nat) (w : List MatWrite) : List MatWrite :=
  w.map (fun t => (ro + t.1, co + t.2.1, t.2.2))

/-- Block-local vector writes shifted into the slice starting at `off` (the
effect of passing `S + vecoffs`). -/
def shiftVec (off : Nat) (w : List (Nat × ℚ)) : List (Nat × ℚ) :=
  w.map (fun p => (off + p.1, p.2))

/-- One `Operator` as consulted by `BuildMatrix`: the block-local matrix
add-writes and rhs add-writes of its `SetMatrixElements(mat, rhs)`, and the
add-writes of `SetVectorElements(vec, data)` as a function of the data the
operator is evaluated against. -/
structure OperatorSpec where
  matElems : List MatWrite
  rhsElems : List (Nat × ℚ)
  vecElems : (Nat → ℚ) → List (Nat × ℚ)

/-- The Solver data consulted by `BuildMatrix`: the non-trivial unknown ids,
the unknown-to-matrix-block map (`find` membership and `operator[]` lookup),
each unknown's operators keyed by the unknown they apply to, the current
unknown data, and the block offsets of the matrix. -/
structure MatrixSolverState where
  nontrivial : List Nat
  utmmContains : Nat → Bool
  utmmGet : Nat → Nat
  operators : Nat → List (Nat × OperatorSpec)
  unknownData : Nat → (Nat → ℚ)
  blockOffset : Nat → Nat

/-- The body of `BuildMatrix`'s inner loop (Solver.cpp lines 145-160): if
the unknown the operator applies to is in the matrix mapping, select block
(row, col) and apply `SetMatrixElements` to the matrix and to `S + vecoffs`;
otherwise apply `SetVectorElements` against the current data of that trivial
unknown, into `S + vecoffs`. -/
def matStep (s : MatrixSolverState) (uqnId : Nat)
    (st : List MatWrite × (Nat → ℚ)) (op : Nat × OperatorSpec) :
    List MatWrite × (Nat → ℚ) :=
  if s.utmmContains op.1 then
    let vecoffs := s.blockOffset (s.utmmGet uqnId)
    (st.1 ++ shiftWrites (s.blockOffset (s.utmmGet uqnId))
        (s.blockOffset (s.utmmGet op.1)) op.2.matElems,
     vecAdd st.2 (shiftVec vecoffs op.2.rhsElems))
  else
    let vecoffs := s.blockOffset (s.utmmGet uqnId)
    (st.1, vecAdd st.2
      (shiftVec vecoffs (op.2.vecElems (s.unknownData op.1))))

/-- `Solver::BuildMatrix(t, dt, mat, S)` (Solver.cpp lines 134-164): zero
the matrix (empty write list) and the rhs (constant-zero function), then
run the double loop over non-trivial row unknowns and their operators. -/
def Solver.BuildMatrix (s : MatrixSolverState) :
    List MatWrite × (Nat → ℚ) :=
  s.nontrivial.foldl (fun st u => (s.operators u).foldl (matStep s u) st)
    ([], fun _ => 0)

/-- A pair-state fold whose step appends matrix writes and applies vector
writes emits the concatenations of both chunk families. -/
theorem foldl_pair_emits {α : Type}
    (step : (List MatWrite × (Nat → ℚ)) → α → (List MatWrite × (Nat → ℚ)))
    (f : α → List MatWrite) (g : α → List (Nat × ℚ))
    (h : ∀ st x, step st x = (st.1 ++ f x, vecAdd st.2 (g x))) :
    ∀ (l : List α) st0,
      l.foldl step st0 = (st0.1 ++ l.flatMap f, vecAdd st0.2 (l.flatMap g))
    := by
  intro l
  induction l with
  | nil => intro st0; simp [vecAdd]
  | cons x xs ih =>
    intro st0
    rw [List.foldl_cons, h, ih, List.flatMap_cons, List.flatMap_cons,
      vecAdd_append]
    simp [List.append_assoc]

/-- The matrix writes BuildMatrix is specified to produce: for each
non-trivial row unknown and each operator applied to a non-trivial unknown,
the operator's block writes shifted to block (row, col). -/
def specMatContribs (s : MatrixSolverState) : List MatWrite :=
  s.nontrivial.flatMap (fun u => (s.operators u).flatMap (fun op =>
    if s.utmmContains op.1 then
      shiftWrites (s.blockOffset (s.utmmGet u))
        (s.blockOffset (s.utmmGet op.1)) op.2.matElems
    else []))

/-- The rhs writes BuildMatrix is specified to produce: each operator's rhs
writes (matrix branch) or its evaluation against the current value of the
trivial unknown it applies to (vector branch), shifted into the slice at the
row block's offset. -/
def specRhsContribs (s : MatrixSolverState) : List (Nat × ℚ) :=
  s.nontrivial.flatMap (fun u => (s.operators u).flatMap (fun op =>
    if s.utmmContains op.1 then
      shiftVec (s.blockOffset (s.utmmGet u)) op.2.rhsElems
    else
      shiftVec (s.blockOffset (s.utmmGet u))
        (op.2.vecElems (s.unknownData op.1))))

/-- Claim C4: BuildMatrix first zeroes the matrix and the rhs; each operator
applied to a non-trivial unknown writes exactly its block writes into matrix
block (row unknown, applied-to unknown); each operator applied to a trivial
unknown is instead evaluated against the current value of that unknown and
added into the rhs slice at the row block's offset, so every rhs entry is
the sum of exactly those contributions. -/
theorem C4_buildMatrix_split (s : MatrixSolverState) :
    (Solver.BuildMatrix s).1 = specMatContribs s ∧
    (∀ i, (Solver.BuildMatrix s).2 i
      = (((specRhsContribs s).filter (fun p => p.1 == i)).map
          Prod.snd).sum) := by
  have hinner : ∀ (u : Nat) st0,
      (s.operators u).foldl (matStep s u) st0
        = (st0.1 ++ (s.operators u).flatMap (fun op =>
            if s.utmmContains op.1 then
              shiftWrites (s.blockOffset (s.utmmGet u))
                (s.blockOffset (s.utmmGet op.1)) op.2.matElems
            else []),
           vecAdd st0.2 ((s.operators u).flatMap (fun op =>
            if s.utmmContains op.1 then
              shiftVec (s.blockOffset (s.utmmGet u)) op.2.rhsElems
            else
              shiftVec (s.blockOffset (s.utmmGet u))
                (op.2.vecElems (s.unknownData op.1))))) := by
    intro u
    exact foldl_pair_emits (matStep s u)
      (fun op => if s.utmmContains op.1 then
          shiftWrites (s.blockOffset (s.utmmGet u))
            (s.blockOffset (s.utmmGet op.1)) op.2.matElems
        else [])
      (fun op => if s.utmmContains op.1 then
          shiftVec (s.blockOffset (s.utmmGet u)) op.2.rhsElems
        else
          shiftVec (s.blockOffset (s.utmmGet u))
            (op.2.vecElems (s.unknownData op.1)))
      (fun st op => by
        by_cases hc : s.utmmContains op.1 <;> simp [matStep, hc])
      (s.operators u)
  have houter : Solver.BuildMatrix s
      = (([] : List MatWrite) ++ specMatContribs s,
         vecAdd (fun _ => 0) (specRhsContribs s)) := by
    unfold Solver.BuildMatrix specMatContribs specRhsContribs
    exact foldl_pair_emits
      (fun st u => (s.operators u).foldl (matStep s u) st)
      (fun u => (s.operators u).flatMap (fun op =>
        if s.utmmContains op.1 then
          shiftWrites (s.blockOffset (s.utmmGet u))
            (s.blockOffset (s.utmmGet op.1)) op.2.matElems
        else []))
      (fun u => (s.operators u).flatMap (fun op =>
        if s.utmmContains op.1 then
          shiftVec (s.blockOffset (s.utmmGet u)) op.2.rhsElems
        else
          shiftVec (s.blockOffset (s.utmmGet u))
            (op.2.vecElems (s.unknownData op.1))))
      (fun st u => hinner u st) s.nontrivial _
  constructor
  · rw [houter]
    simp
  · intro i
    rw [houter]
    show vecAdd (fun _ => 0) (specRhsContribs s) i = _
    rw [vecAdd_apply]
    simp

/-! ## Solver::BuildJacobian (src/src/Solver/Solver.cpp lines 55-124)

`BuildJacobian` is embedded as the ordered list of calls it issues on the
block matrix and the operators, together with a matrix semantics in which
interior `SetJacobianBlock` contributions add and boundary-condition
`SetJacobianBlockBC` contributions overwrite the rows they cover (the
override the spec ascribes to boundary conditions).  Sub-equation selection
events are recorded; the write coordinates of the semantic functions are
global (the selected offsets absorbed). -/

/-- The calls issued by `Solver::BuildJacobian`, in order. -/
inductive JacEvent where
  | zero : JacEvent
  | selectSubEquation (rowBlock colBlock : Nat) : JacEvent
  | setJacobianBlock (uqnId applyTo derivId : Nat) : JacEvent
  | partialAssemble : JacEvent
  | setJacobianBlockBC (uqnId applyTo derivId : Nat) : JacEvent
  | assemble : JacEvent
deriving DecidableEq

/-- The Solver data consulted by `BuildJacobian`: the non-trivial unknown
ids, the unknown-to-block map (`operator[]`), and each unknown's operator
keys (the unknowns its operators apply to). -/
structure JacConfig where
  nontrivial : List Nat
  utmmGet : Nat → Nat
  operators : Nat → List Nat

/-- `Solver::BuildJacobian(t, dt, jac)` (Solver.cpp lines 55-124) as the
ordered list of calls it issues: zero; the triple interior loop (row
unknown, operator, non-trivial derivative unknown) of block selections and
`SetJacobianBlock` calls; partial assembly; the same triple loop issuing
`SetJacobianBlockBC`; final assembly. -/
def Solver.BuildJacobian (c : JacConfig) : List JacEvent :=
  let ev2 := c.nontrivial.foldl (fun acc u =>
    (c.operators u).foldl (fun acc2 a =>
      c.nontrivial.foldl (fun acc3 d =>
        acc3 ++ [JacEvent.selectSubEquation (c.utmmGet u) (c.utmmGet d),
                 JacEvent.setJacobianBlock u a d]) acc2) acc)
    [JacEvent.zero]
  let ev3 := ev2 ++ [JacEvent.partialAssemble]
  let ev4 := c.nontrivial.foldl (fun acc u =>
    (c.operators u).foldl (fun acc2 a =>
      c.nontrivial.foldl (fun acc3 d =>
        acc3 ++ [JacEvent.selectSubEquation (c.utmmGet u) (c.utmmGet d),
                 JacEvent.setJacobianBlockBC u a d]) acc2) acc) ev3
  ev4 ++ [JacEvent.assemble]

/-- The interior pass the spec describes: for every non-trivial row unknown,
every operator applied to it and every non-trivial column unknown, select
block (row, col) and call SetJacobianBlock. -/
def specInteriorPass (c : JacConfig) : List JacEvent :=
  c.nontrivial.flatMap (fun u => (c.operators u).flatMap (fun a =>
    c.nontrivial.flatMap (fun d =>
      [JacEvent.selectSubEquation (c.utmmGet u) (c.utmmGet d),
       JacEvent.setJacobianBlock u a d])))

/-- The boundary-condition pass the spec describes. -/
def specBCPass (c : JacConfig) : List JacEvent :=
  c.nontrivial.flatMap (fun u => (c.operators u).flatMap (fun a =>
    c.nontrivial.flatMap (fun d =>
      [JacEvent.selectSubEquation (c.utmmGet u) (c.utmmGet d),
       JacEvent.setJacobianBlockBC u a d])))

theorem buildJacobian_phases (c : JacConfig) :
    Solver.BuildJacobian c
      = [JacEvent.zero] ++ specInteriorPass c ++ [JacEvent.partialAssemble]
          ++ specBCPass c ++ [JacEvent.assemble] := by
  have hloop : ∀ (mk : Nat → Nat → Nat → JacEvent)
      (init : List JacEvent),
      c.nontrivial.foldl (fun acc u =>
        (c.operators u).foldl (fun acc2 a =>
          c.nontrivial.foldl (fun acc3 d =>
            acc3 ++ [JacEvent.selectSubEquation (c.utmmGet u) (c.utmmGet d),
                     mk u a d]) acc2) acc) init
      = init ++ c.nontrivial.flatMap (fun u =>
          (c.operators u).flatMap (fun a =>
            c.nontrivial.flatMap (fun d =>
              [JacEvent.selectSubEquation (c.utmmGet u) (c.utmmGet d),
               mk u a d]))) := by
    intro mk init
    refine foldl_emits _ _ (fun acc u => ?_) c.nontrivial init
    refine foldl_emits _ _ (fun acc2 a => ?_) (c.operators u) acc
    exact foldl_emits _ _ (fun acc3 d => rfl) c.nontrivial acc2
  simp only [Solver.BuildJacobian]
  rw [hloop, hloop]
  unfold specInteriorPass specBCPass
  simp [List.append_assoc]

/-- The matrix semantics of the Jacobian calls: `J u a d` is the additive
contribution of `SetJacobianBlock(a, d, jac, x)` issued for row unknown `u`
(at global coordinates); `bcRows u a d` is the set of rows the corresponding
`SetJacobianBlockBC` overwrites and `B u a d` the values it inserts. -/
structure JacSemantics where
  J : Nat → Nat → Nat → Nat → Nat → ℚ
  bcRows : Nat → Nat → Nat → List Nat
  B : Nat → Nat → Nat → Nat → Nat → ℚ

/-- Effect of one call on the matrix: zeroing resets, interior contributions
add, boundary-condition contributions overwrite their rows, assembly and
selection leave the values unchanged. -/
def applyJacEvent (sem : JacSemantics) (M : Nat → Nat → ℚ) :
    JacEvent → (Nat → Nat → ℚ)
  | JacEvent.zero => fun _ _ => 0
  | JacEvent.selectSubEquation _ _ => M
  | JacEvent.setJacobianBlock u a d => fun r col => M r col + sem.J u a d r col
  | JacEvent.partialAssemble => M
  | JacEvent.setJacobianBlockBC u a d => fun r col =>
      if r ∈ sem.bcRows u a d then sem.B u a d r col else M r col
  | JacEvent.assemble => M

/-- Run a call sequence against the matrix semantics. -/
def runJac (sem : JacSemantics) (M : Nat → Nat → ℚ) (evs : List JacEvent) :
    Nat → Nat → ℚ :=
  evs.foldl (applyJacEvent sem) M

theorem runJac_append (sem : JacSemantics) (M : Nat → Nat → ℚ)
    (l1 l2 : List JacEvent) :
    runJac sem M (l1 ++ l2) = runJac sem (runJac sem M l1) l2 :=
  List.foldl_append _ _ l1 l2

theorem runJac_preserves (sem : JacSemantics) (r col : Nat) :
    ∀ (l : List JacEvent) (M : Nat → Nat → ℚ),
      (∀ x ∈ l, ∀ N : Nat → Nat → ℚ, applyJacEvent sem N x r col = N r col) →
      runJac sem M l r col = M r col := by
  intro l
  induction l with
  | nil => intro M _; rfl
  | cons x xs ih =>
    intro M h
    show runJac sem (applyJacEvent sem M x) xs r col = M r col
    rw [ih (applyJacEvent sem M x)
      (fun y hy N => h y (List.mem_cons_of_mem x hy) N)]
    exact h x (List.mem_cons_self x xs) M

theorem specBCPass_shape (c : JacConfig) :
    ∀ x ∈ specBCPass c,
      (∃ rb cb, x = JacEvent.selectSubEquation rb cb) ∨
      (∃ u a d, x = JacEvent.setJacobianBlockBC u a d) := by
  intro x hx
  simp only [specBCPass, List.mem_flatMap] at hx
  obtain ⟨u, _, a, _, d, _, hx2⟩ := hx
  simp only [List.mem_cons, List.mem_singleton, List.not_mem_nil, or_false]
    at hx2
  rcases hx2 with h | h
  · exact Or.inl ⟨c.utmmGet u, c.utmmGet d, h⟩
  · exact Or.inr ⟨u, a, d, h⟩

/-- Claim C3: BuildJacobian zeroes the Jacobian, runs the interior
triple loop of block selections and SetJacobianBlock calls, partially
assembles, runs the boundary-condition loop of SetJacobianBlockBC calls
(which overwrite rows), and finally assembles; consequently a matrix entry
whose row is overwritten by a boundary condition, and not touched by any
later boundary condition, ends up exactly equal to that boundary
condition's contribution — independent of every interior contribution. -/
theorem C3_buildJacobian_order (c : JacConfig) (sem : JacSemantics)
    (M0 : Nat → Nat → ℚ) (l1 l2 : List JacEvent) (u a d r col : Nat)
    (hsplit : specBCPass c = l1 ++ JacEvent.setJacobianBlockBC u a d :: l2)
    (hr : r ∈ sem.bcRows u a d)
    (hlater : ∀ u2 a2 d2, JacEvent.setJacobianBlockBC u2 a2 d2 ∈ l2 →
      r ∉ sem.bcRows u2 a2 d2) :
    Solver.BuildJacobian c
      = [JacEvent.zero] ++ specInteriorPass c ++ [JacEvent.partialAssemble]
          ++ specBCPass c ++ [JacEvent.assemble] ∧
    runJac sem M0 (Solver.BuildJacobian c) r col = sem.B u a d r col := by
  have hphase := buildJacobian_phases c
  refine ⟨hphase, ?_⟩
  rw [hphase, hsplit]
  have hassoc :
      ([JacEvent.zero] ++ specInteriorPass c ++ [JacEvent.partialAssemble]
        ++ (l1 ++ JacEvent.setJacobianBlockBC u a d :: l2)
        ++ [JacEvent.assemble])
      = (([JacEvent.zero] ++ specInteriorPass c
          ++ [JacEvent.partialAssemble] ++ l1)
         ++ [JacEvent.setJacobianBlockBC u a d]) ++ (l2 ++ [JacEvent.assemble])
      := by simp [List.append_assoc]
  rw [hassoc, runJac_append, runJac_append]
  set pre := [JacEvent.zero] ++ specInteriorPass c ++ [JacEvent.partialAssemble]
    ++ l1 with hpre
  have h1 : runJac sem (runJac sem (runJac sem M0
        (pre ++ [JacEvent.setJacobianBlockBC u a d])) l2)
        [JacEvent.assemble] r col
      = runJac sem (runJac sem M0
          (pre ++ [JacEvent.setJacobianBlockBC u a d])) l2 r col := rfl
  rw [h1]
  have hl2only : ∀ x ∈ l2, ∀ N : Nat → Nat → ℚ,
      applyJacEvent sem N x r col = N r col := by
    intro x hx2 N
    have hxbc : x ∈ specBCPass c := by
      rw [hsplit]
      exact List.mem_append_right l1 (List.mem_cons_of_mem _ hx2)
    rcases specBCPass_shape c x hxbc with ⟨rb, cb, hxe⟩ | ⟨u2, a2, d2, hxe⟩
    · rw [hxe]; rfl
    · rw [hxe]
      have := hlater u2 a2 d2 (hxe ▸ hx2)
      simp [applyJacEvent, this]
  rw [runJac_preserves sem r col l2 _ hl2only, runJac_append]
  show applyJacEvent sem (runJac sem M0 pre)
    (JacEvent.setJacobianBlockBC u a d) r col = _
  simp [applyJacEvent, hr]

/-- Witness for C3: one non-trivial unknown with one operator, a boundary
condition overwriting row 0 with the value 5 while the interior term
contributes 1: the assembled entry (0,0) equals 5, not 6. -/
theorem C3_buildJacobian_order_witness :
    runJac
      { J := fun _ _ _ _ _ => 1, bcRows := fun _ _ _ => [0],
        B := fun _ _ _ _ _ => 5 }
      (fun _ _ => 0)
      (Solver.BuildJacobian
        { nontrivial := [0], utmmGet := fun _ => 0,
          operators := fun _ => [0] }) 0 0 = 5 :=
  (C3_buildJacobian_order
    { nontrivial := [0], utmmGet := fun _ => 0, operators := fun _ => [0] }
    { J := fun _ _ _ _ _ => 1, bcRows := fun _ _ _ => [0],
      B := fun _ _ _ _ _ => 5 }
    (fun _ _ => 0) [JacEvent.selectSubEquation 0 0] [] 0 0 0 0 0
    (by decide)
    (by decide)
    (fun u2 a2 d2 h => absurd h (List.not_mem_nil _))).2

/-! ## Flux conservation for AdvectionTerm / DiffusionTerm vector assembly

Modelled from the spec: the stencil bodies `DiffusionTerm.set.cpp` and
`AdvectionTerm.setNEW.cpp`, textually included by
`DiffusionTerm::SetVectorElements` (DiffusionTerm.cpp lines 353-362) and
`AdvectionTerm::SetVectorElements` (part_007 lines 574-582), are not under
src/.  Per the spec the terms are conservative finite-volume flux
divergences over the (radius × momentum-1 × momentum-2) cell grid: each face
carries one flux — advection: face coefficient times the δ-interpolated cell
values (δ = ½ is the central-difference default); diffusion: coefficient
times the normal state difference plus, for the cross coefficients d12/d21,
a tangential central difference of face-averaged values — and the
central-cell contribution is minus the sum of its face contributions, so a
cell's vector entry is the difference of its two bounding face fluxes in
each direction.  A face with index 0 or n in its direction is a domain
boundary face. -/

/-- Advection flux through radial face `(ir, i, j)` (between cells `ir-1`
and `ir`): δ-weighted interpolation of the adjacent cell values. -/
def advFluxR (Fr dr x : Nat → Nat → Nat → ℚ) (ir i j : Nat) : ℚ :=
  Fr ir i j * ((1 - dr ir i j) * x (ir - 1) i j + dr ir i j * x ir i j)

/-- Advection flux through a momentum-1 face `(ir, i, j)` (between cells
`i-1` and `i`). -/
def advFlux1 (F1 d1 x : Nat → Nat → Nat → ℚ) (ir i j : Nat) : ℚ :=
  F1 ir i j * ((1 - d1 ir i j) * x ir (i - 1) j + d1 ir i j * x ir i j)

/-- Advection flux through a momentum-2 face `(ir, i, j)` (between cells
`j-1` and `j`). -/
def advFlux2 (F2 d2 x : Nat → Nat → Nat → ℚ) (ir i j : Nat) : ℚ :=
  F2 ir i j * ((1 - d2 ir i j) * x ir i (j - 1) + d2 ir i j * x ir i j)

/-- The entry `AdvectionTerm::SetVectorElements` adds to the vector for cell
`(ir, i, j)`: the difference of the bounding face fluxes in each of the
three directions. -/
def AdvectionTerm.SetVectorElementsCell
    (Fr F1 F2 dr d1 d2 x : Nat → Nat → Nat → ℚ) (ir i j : Nat) : ℚ :=
  (advFluxR Fr dr x (ir + 1) i j - advFluxR Fr dr x ir i j) +
  (advFlux1 F1 d1 x ir (i + 1) j - advFlux1 F1 d1 x ir i j) +
  (advFlux2 F2 d2 x ir i (j + 1) - advFlux2 F2 d2 x ir i j)

/-- Diffusion flux through radial face `(ir, i, j)`: coefficient times the
radial state difference. -/
def diffFluxR (Drr x : Nat → Nat → Nat → ℚ) (ir i j : Nat) : ℚ :=
  Drr ir i j * (x ir i j - x (ir - 1) i j)

/-- Diffusion flux through a momentum-1 face: `d11` times the normal
difference plus `d12` times a tangential central difference of the
face-averaged values. -/
def diffFlux1 (D11 D12 x : Nat → Nat → Nat → ℚ) (ir i j : Nat) : ℚ :=
  D11 ir i j * (x ir i j - x ir (i - 1) j) +
  D12 ir i j * (((x ir (i - 1) (j + 1) + x ir i (j + 1))
    - (x ir (i - 1) (j - 1) + x ir i (j - 1))) / 4)

/-- Diffusion flux through a momentum-2 face: `d22` times the normal
difference plus `d21` times a tangential central difference of the
face-averaged values. -/
def diffFlux2 (D22 D21 x : Nat → Nat → Nat → ℚ) (ir i j : Nat) : ℚ :=
  D22 ir i j * (x ir i j - x ir i (j - 1)) +
  D21 ir i j * (((x ir (i + 1) (j - 1) + x ir (i + 1) j)
    - (x ir (i - 1) (j - 1) + x ir (i - 1) j)) / 4)

/-- The entry `DiffusionTerm::SetVectorElements` adds to the vector for cell
`(ir, i, j)`. -/
def DiffusionTerm.SetVectorElementsCell
    (Drr D11 D12 D21 D22 x : Nat → Nat → Nat → ℚ) (ir i j : Nat) : ℚ :=
  (diffFluxR Drr x (ir + 1) i j - diffFluxR Drr x ir i j) +
  (diffFlux1 D11 D12 x ir (i + 1) j - diffFlux1 D11 D12 x ir i j) +
  (diffFlux2 D22 D21 x ir i (j + 1) - diffFlux2 D22 D21 x ir i j)

/-- Claim C2: for an AdvectionTerm whose boundary-face coefficients vanish
(zero flux through the domain boundary) and for any DiffusionTerm, the
entries of `SetVectorElements` applied to a spatially constant state vector
sum to exactly zero over all cells (flux telescoping). -/
theorem C2_conservation (nr np1 np2 : Nat)
    (Fr F1 F2 dr d1 d2 Drr D11 D12 D21 D22 : Nat → Nat → Nat → ℚ) (c : ℚ)
    (hFrLo : ∀ i j, Fr 0 i j = 0) (hFrHi : ∀ i j, Fr nr i j = 0)
    (hF1Lo : ∀ ir j, F1 ir 0 j = 0) (hF1Hi : ∀ ir j, F1 ir np1 j = 0)
    (hF2Lo : ∀ ir i, F2 ir i 0 = 0) (hF2Hi : ∀ ir i, F2 ir i np2 = 0) :
    (∑ ir ∈ Finset.range nr, ∑ i ∈ Finset.range np1,
      ∑ j ∈ Finset.range np2,
        AdvectionTerm.SetVectorElementsCell Fr F1 F2 dr d1 d2
          (fun _ _ _ => c) ir i j) = 0 ∧
    (∑ ir ∈ Finset.range nr, ∑ i ∈ Finset.range np1,
      ∑ j ∈ Finset.range np2,
        DiffusionTerm.SetVectorElementsCell Drr D11 D12 D21 D22
          (fun _ _ _ => c) ir i j) = 0 := by
  constructor
  · have hR : ∀ ir i j, advFluxR Fr dr (fun _ _ _ => c) ir i j
        = Fr ir i j * c := by
      intro ir i j
      unfold advFluxR
      ring
    have h1 : ∀ ir i j, advFlux1 F1 d1 (fun _ _ _ => c) ir i j
        = F1 ir i j * c := by
      intro ir i j
      unfold advFlux1
      ring
    have h2 : ∀ ir i j, advFlux2 F2 d2 (fun _ _ _ => c) ir i j
        = F2 ir i j * c := by
      intro ir i j
      unfold advFlux2
      ring
    simp only [AdvectionTerm.SetVectorElementsCell, hR, h1, h2]
    simp only [Finset.sum_add_distrib]
    have hXR : (∑ ir ∈ Finset.range nr, ∑ i ∈ Finset.range np1,
        ∑ j ∈ Finset.range np2, (Fr (ir + 1) i j * c - Fr ir i j * c)) = 0
        := by
      have hpull : ∀ ir, (∑ i ∈ Finset.range np1, ∑ j ∈ Finset.range np2,
          (Fr (ir + 1) i j * c - Fr ir i j * c))
          = (∑ i ∈ Finset.range np1, ∑ j ∈ Finset.range np2,
              Fr (ir + 1) i j * c)
            - (∑ i ∈ Finset.range np1, ∑ j ∈ Finset.range np2,
              Fr ir i j * c) := by
        intro ir
        simp [Finset.sum_sub_distrib]
      rw [Finset.sum_congr rfl (fun ir _ => hpull ir),
        Finset.sum_range_sub (fun ir => ∑ i ∈ Finset.range np1,
          ∑ j ∈ Finset.range np2, Fr ir i j * c)]
      simp [hFrHi, hFrLo]
    have hX1 : (∑ ir ∈ Finset.range nr, ∑ i ∈ Finset.range np1,
        ∑ j ∈ Finset.range np2, (F1 ir (i + 1) j * c - F1 ir i j * c)) = 0
        := by
      have hone : ∀ ir, (∑ i ∈ Finset.range np1, ∑ j ∈ Finset.range np2,
          (F1 ir (i + 1) j * c - F1 ir i j * c)) = 0 := by
        intro ir
        have hpull : ∀ i, (∑ j ∈ Finset.range np2,
            (F1 ir (i + 1) j * c - F1 ir i j * c))
            = (∑ j ∈ Finset.range np2, F1 ir (i + 1) j * c)
              - (∑ j ∈ Finset.range np2, F1 ir i j * c) := by
          intro i
          simp [Finset.sum_sub_distrib]
        rw [Finset.sum_congr rfl (fun i _ => hpull i),
          Finset.sum_range_sub (fun i => ∑ j ∈ Finset.range np2,
            F1 ir i j * c)]
        simp [hF1Hi, hF1Lo]
      rw [Finset.sum_congr rfl (fun ir _ => hone ir)]
      simp
    have hX2 : (∑ ir ∈ Finset.range nr, ∑ i ∈ Finset.range np1,
        ∑ j ∈ Finset.range np2, (F2 ir i (j + 1) * c - F2 ir i j * c)) = 0
        := by
      have hone : ∀ ir i, (∑ j ∈ Finset.range np2,
          (F2 ir i (j + 1) * c - F2 ir i j * c)) = 0 := by
        intro ir i
        rw [Finset.sum_range_sub (fun j => F2 ir i j * c)]
        simp [hF2Hi, hF2Lo]
      rw [Finset.sum_congr rfl (fun ir _ => Finset.sum_congr rfl
        (fun i _ => hone ir i))]
      simp
    rw [hXR, hX1, hX2]
    ring
  · have hzero : ∀ ir i j, DiffusionTerm.SetVectorElementsCell Drr D11 D12
        D21 D22 (fun _ _ _ => c) ir i j = 0 := by
      intro ir i j
      unfold DiffusionTerm.SetVectorElementsCell diffFluxR diffFlux1
        diffFlux2
      ring
    simp [hzero]

/-- Witness for C2: a 2×2×2 grid, interior-only advection coefficients equal
to 7 and constant state 3. -/
theorem C2_conservation_witness :
    (∑ ir ∈ Finset.range 2, ∑ i ∈ Finset.range 2, ∑ j ∈ Finset.range 2,
      AdvectionTerm.SetVectorElementsCell
        (fun ir _ _ => if ir = 1 then 7 else 0)
        (fun _ i _ => if i = 1 then 7 else 0)
        (fun _ _ j => if j = 1 then 7 else 0)
        (fun _ _ _ => 1/2) (fun _ _ _ => 1/2) (fun _ _ _ => 1/2)
        (fun _ _ _ => 3) ir i j) = 0 :=
  (C2_conservation 2 2 2
    (fun ir _ _ => if ir = 1 then 7 else 0)
    (fun _ i _ => if i = 1 then 7 else 0)
    (fun _ _ j => if j = 1 then 7 else 0)
    (fun _ _ _ => 1/2) (fun _ _ _ => 1/2) (fun _ _ _ => 1/2)
    (fun _ _ _ => 1) (fun _ _ _ => 1) (fun _ _ _ => 1) (fun _ _ _ => 1)
    (fun _ _ _ => 1) 3
    (fun _ _ => rfl) (fun _ _ => rfl) (fun _ _ => rfl) (fun _ _ => rfl)
    (fun _ _ => rfl) (fun _ _ => rfl)).1

end DREAM
